import Mathlib

/-!
Shallow embedding of the buffer-pool layer of Neru7DB (`src/buffer.rs`):
the clock-sweep eviction algorithm of `BufferPool::evict` and the
cache-hit / cache-miss orchestration of `BufferPoolManager::fetch_page`,
together with the disk collaborator modelled as an oracle and a trace of
attempted disk operations.

Modelling decisions, all taken from the source:
- `PageId` and `BufferId` are `Nat`; a page's byte block is `List Nat`.
- An `Rc<Buffer>` handle held outside the pool is counted by the `pins`
  field of a frame; `Rc::get_mut` succeeds exactly when `pins = 0`, and
  `Rc::clone` (returning a handle) increments `pins`.
- The `HashMap<PageId, BufferId>` page table is an association list with
  distinct keys; `insert` overwrites, `remove` deletes the key.
- Disk I/O is an oracle (`readResult`, `writeOk`); every attempted read or
  write is recorded in an operation trace in program order, and a failing
  oracle answer models the `std::io::Error` propagated by `?`.
- The `unwrap` on `Rc::get_mut` in the miss path and out-of-range indexing
  are modelled by the distinguished result `FetchResult.panicked`.
-/

/-- A page's byte content (`type Page = [u8; PAGE_SIZE]`; the fixed size is
irrelevant to the verified properties). -/
def Page : Type := List Nat

instance : DecidableEq Page := by
  unfold Page
  infer_instance

/-- One attempted disk operation, in program order. -/
inductive DiskOp where
  | read (page_id : Nat)
  | write (page_id : Nat) (data : Page)
  deriving DecidableEq

/-- The two error variants of `buffer::Error`: a propagated I/O error and
`NoFreeBuffer`. -/
inductive Error where
  | io
  | noFreeBuffer
  deriving DecidableEq

/-- Result of `fetch_page`: a returned handle (identified by the `BufferId`
of the frame whose `Rc<Buffer>` was cloned), an error, or a Rust panic
(failed `unwrap` / out-of-range index). -/
inductive FetchResult where
  | ok (buffer_id : Nat)
  | err (e : Error)
  | panicked
  deriving DecidableEq

/-- The disk collaborator as an oracle: what `read_page_data` yields for
each page (`none` = I/O error) and whether `write_page_data` succeeds. -/
structure DiskManager where
  readResult : Nat → Option Page
  writeOk : Nat → Bool

/-- `Buffer`: one page's bytes plus its current `PageId` and dirty flag. -/
structure Buffer where
  page_id : Nat
  page : Page
  is_dirty : Bool
  deriving DecidableEq

/-- `Frame`: a pool slot. `usage_count` is the clock-sweep counter; `pins`
counts live `Rc<Buffer>` handles held outside the pool (the frame is
pinned iff `pins ≠ 0`, i.e. `Rc::get_mut` fails). -/
structure Frame where
  usage_count : Nat
  buffer : Buffer
  pins : Nat
  deriving DecidableEq

/-- `BufferPool`: the fixed frame array plus the persisted sweep cursor. -/
structure BufferPool where
  buffers : List Frame
  next_victim_id : Nat
  deriving DecidableEq

def BufferPool.size (bp : BufferPool) : Nat := bp.buffers.length

def BufferPool.increment_id (bp : BufferPool) (buffer_id : Nat) : Nat :=
  (buffer_id + 1) % bp.size

/-- Total usage over the pool; used only to bound the sweep's fuel. -/
def sumUsage (bp : BufferPool) : Nat :=
  (bp.buffers.map Frame.usage_count).sum

/-- One clock-sweep scan, a step per loop iteration of `BufferPool::evict`:
at the cursor, a frame with `usage_count = 0` is selected (cursor not
advanced); otherwise an unpinned frame is decremented and the pinned streak
reset; otherwise the streak grows and reaching the pool size aborts with no
victim. Returns the victim (if any), the updated pool, and the number of
frames examined; the outer `none` means the fuel ran out or the cursor was
out of range, neither of which happens for a well-formed pool.

Modelled from the spec: the source ends the successful scan with a
`todo!()` placeholder instead of returning the selected `BufferId`; the
spec (§4.1, §9 "Unresolved victim-selection return") mandates that the
selected frame's identifier is returned, which is what the
`usage_count = 0` branch does here. -/
def evictAux : Nat → BufferPool → Nat → Nat → Option (Option Nat × BufferPool × Nat)
  | 0, _, _, _ => none
  | fuel + 1, bp, consecutive_pinned, examined =>
    match bp.buffers[bp.next_victim_id]? with
    | none => none
    | some frame =>
      if frame.usage_count = 0 then
        some (some bp.next_victim_id, bp, examined + 1)
      else if frame.pins = 0 then
        evictAux fuel
          { buffers := bp.buffers.set bp.next_victim_id
              { frame with usage_count := frame.usage_count - 1 },
            next_victim_id := bp.increment_id bp.next_victim_id }
          0 (examined + 1)
      else if bp.size ≤ consecutive_pinned + 1 then
        some (none, bp, examined + 1)
      else
        evictAux fuel
          { bp with next_victim_id := bp.increment_id bp.next_victim_id }
          (consecutive_pinned + 1) (examined + 1)

/-- Fuel that always suffices for the sweep. -/
def evictFuel (bp : BufferPool) : Nat :=
  sumUsage bp * bp.size + bp.size + 1

/-- `BufferPool::evict`: run the sweep from the persisted cursor with a
fresh pinned streak. The fallback arm is unreachable for a well-formed pool,
as the sweep-termination theorem below shows. -/
def BufferPool.evict (bp : BufferPool) : Option Nat × BufferPool × Nat :=
  match evictAux (evictFuel bp) bp 0 0 with
  | some r => r
  | none => (none, bp, 0)

/-- `HashMap::get` on the page table. -/
def tableGet (t : List (Nat × Nat)) (k : Nat) : Option Nat :=
  match t with
  | [] => none
  | (p, b) :: rest => if p = k then some b else tableGet rest k

/-- `HashMap::remove` on the page table. -/
def tableRemove (t : List (Nat × Nat)) (k : Nat) : List (Nat × Nat) :=
  match t with
  | [] => []
  | (p, b) :: rest =>
    if p = k then tableRemove rest k else (p, b) :: tableRemove rest k

/-- `HashMap::insert` on the page table (overwrites the key). -/
def tableInsert (t : List (Nat × Nat)) (k v : Nat) : List (Nat × Nat) :=
  (k, v) :: tableRemove t k

/-- `BufferPoolManager`: disk collaborator, pool, and page table. -/
structure BufferPoolManager where
  disk : DiskManager
  pool : BufferPool
  page_table : List (Nat × Nat)

/-- The read-fill tail of the miss path of `fetch_page`: overwrite the
victim buffer's `page_id` with the requested id, clear the dirty flag, then
read the requested page from disk (`?` propagates a failure before
`usage_count` is set and before the page table is touched); on success set
`usage_count` to 1, update the page table (remove the evicted id, insert
the requested id), and return a cloned handle. `tr0` is the trace of the
write-back, if one happened. -/
def missRead (m : BufferPoolManager) (pool1 : BufferPool) (buffer_id : Nat)
    (frame : Frame) (page_id : Nat) (tr0 : List DiskOp) :
    FetchResult × BufferPoolManager × List DiskOp :=
  let buf1 : Buffer := { frame.buffer with page_id := page_id, is_dirty := false }
  match m.disk.readResult page_id with
  | none =>
    let pool2 := { pool1 with
      buffers := pool1.buffers.set buffer_id { frame with buffer := buf1 } }
    (.err .io, { m with pool := pool2 }, tr0 ++ [DiskOp.read page_id])
  | some data =>
    let buf2 : Buffer := { buf1 with page := data }
    let frame2 : Frame := { frame with buffer := buf2, usage_count := 1, pins := frame.pins + 1 }
    let pool2 := { pool1 with buffers := pool1.buffers.set buffer_id frame2 }
    let table1 := tableInsert (tableRemove m.page_table frame.buffer.page_id)
      page_id buffer_id
    (.ok buffer_id, { m with pool := pool2, page_table := table1 },
      tr0 ++ [DiskOp.read page_id])

/-- `BufferPoolManager::fetch_page`. Hit: bump the frame's usage counter
and clone the handle, no disk access. Miss: evict, fail with `NoFreeBuffer`
when no victim exists, write back a dirty victim before reuse (propagating
a write failure with the victim untouched), then read-fill via `missRead`. -/
def fetch_page (m : BufferPoolManager) (page_id : Nat) :
    FetchResult × BufferPoolManager × List DiskOp :=
  match tableGet m.page_table page_id with
  | some buffer_id =>
    match m.pool.buffers[buffer_id]? with
    | none => (.panicked, m, [])
    | some frame =>
      let frame1 : Frame :=
        { frame with usage_count := frame.usage_count + 1, pins := frame.pins + 1 }
      let pool1 := { m.pool with buffers := m.pool.buffers.set buffer_id frame1 }
      (.ok buffer_id, { m with pool := pool1 }, [])
  | none =>
    match m.pool.evict with
    | (none, pool1, _) => (.err .noFreeBuffer, { m with pool := pool1 }, [])
    | (some buffer_id, pool1, _) =>
      match pool1.buffers[buffer_id]? with
      | none => (.panicked, { m with pool := pool1 }, [])
      | some frame =>
        if frame.pins ≠ 0 then (.panicked, { m with pool := pool1 }, [])
        else
          let evict_page_id := frame.buffer.page_id
          if frame.buffer.is_dirty then
            if m.disk.writeOk evict_page_id then
              missRead m pool1 buffer_id frame page_id
                [DiskOp.write evict_page_id frame.buffer.page]
            else
              (.err .io, { m with pool := pool1 },
                [DiskOp.write evict_page_id frame.buffer.page])
          else
            missRead m pool1 buffer_id frame page_id []

/-- Dropping one live handle to frame `i`'s buffer: the `Rc` strong count
decreases by one. -/
def dropHandle (m : BufferPoolManager) (i : Nat) : BufferPoolManager :=
  match m.pool.buffers[i]? with
  | none => m
  | some f =>
    { m with pool := { m.pool with
        buffers := m.pool.buffers.set i { f with pins := f.pins - 1 } } }

/-- Modelled from the spec: the pool/manager constructor is not part of
`src/buffer.rs`; per the spec (§3 Lifecycle) the pool starts with `n`
frames, all usage counters zero, no outstanding handles, an empty lookup
table, and the cursor at slot 0. Initial buffers hold a default page. -/
def initBuffer : Buffer := { page_id := 0, page := [], is_dirty := false }

def initFrame : Frame := { usage_count := 0, buffer := initBuffer, pins := 0 }

def initManager (disk : DiskManager) (n : Nat) : BufferPoolManager :=
  { disk := disk,
    pool := { buffers := List.replicate n initFrame, next_victim_id := 0 },
    page_table := [] }

/-- States reachable from a freshly constructed pool by `fetch_page` calls
and handle drops. -/
inductive Reachable : BufferPoolManager → Prop where
  | init (disk : DiskManager) (n : Nat) : Reachable (initManager disk n)
  | fetch (m : BufferPoolManager) (page_id : Nat) :
      Reachable m → Reachable (fetch_page m page_id).2.1
  | drop (m : BufferPoolManager) (i : Nat) :
      Reachable m → Reachable (dropHandle m i)

/-- Derived pin invariant of reachable states: a pinned frame always has a
positive usage counter. -/
def PinInv (bp : BufferPool) : Prop :=
  ∀ f ∈ bp.buffers, 0 < f.pins → 0 < f.usage_count

/-- Every page-table entry names an in-range frame. -/
def TableRange (m : BufferPoolManager) : Prop :=
  ∀ pb ∈ m.page_table, pb.2 < m.pool.size

/-- The table/frame consistency invariant of the spec: distinct keys, and
every entry `(p, b)` names an in-range frame whose buffer holds page `p`. -/
def TableInv (m : BufferPoolManager) : Prop :=
  (m.page_table.map Prod.fst).Nodup ∧
  ∀ pb ∈ m.page_table, ∃ f, m.pool.buffers[pb.2]? = some f ∧
    f.buffer.page_id = pb.1

/-- Disk oracle for the concrete runs below: page 2 fails to read, every
other page reads back one byte, all writes succeed. -/
def cexDisk : DiskManager :=
  { readResult := fun p => if p = 2 then none else some [p],
    writeOk := fun _ => true }

/-- Fresh single-frame pool over `cexDisk`. -/
def cexM0 : BufferPoolManager := initManager cexDisk 1

/-- After a successful `fetch_page 1`. -/
def cexM1 : BufferPoolManager := (fetch_page cexM0 1).2.1

/-- After dropping the handle returned for page 1. -/
def cexM2 : BufferPoolManager := dropHandle cexM1 0

/-- After `fetch_page 2`, whose read-fill fails with an I/O error. -/
def cexM3 : BufferPoolManager := (fetch_page cexM2 2).2.1

/-! ### Association-list (page table) lemmas -/

theorem tableGet_some_mem {t : List (Nat × Nat)} {k b : Nat}
    (h : tableGet t k = some b) : (k, b) ∈ t := by
  induction t with
  | nil => simp [tableGet] at h
  | cons pb rest ih =>
    obtain ⟨p, b0⟩ := pb
    by_cases hp : p = k
    · subst hp
      simp [tableGet] at h
      subst h
      exact List.mem_cons_self _ _
    · simp [tableGet, hp] at h
      exact List.mem_cons_of_mem _ (ih h)

theorem tableGet_none_not_mem {t : List (Nat × Nat)} {k : Nat}
    (h : tableGet t k = none) : ∀ b, (k, b) ∉ t := by
  induction t with
  | nil => simp
  | cons pb rest ih =>
    obtain ⟨p, b0⟩ := pb
    by_cases hp : p = k
    · subst hp
      simp [tableGet] at h
    · simp [tableGet, hp] at h
      intro b hb
      rcases List.mem_cons.mp hb with h1 | h1
      · exact hp (congrArg Prod.fst h1).symm
      · exact ih h b h1

theorem tableRemove_sublist (t : List (Nat × Nat)) (k : Nat) :
    (tableRemove t k).Sublist t := by
  induction t with
  | nil => simp [tableRemove]
  | cons pb rest ih =>
    obtain ⟨p, b0⟩ := pb
    by_cases hp : p = k
    · simp only [tableRemove, if_pos hp]
      exact ih.cons _
    · simp only [tableRemove, if_neg hp]
      exact ih.cons₂ _

theorem mem_tableRemove {t : List (Nat × Nat)} {k : Nat} {pb : Nat × Nat} :
    pb ∈ tableRemove t k ↔ pb ∈ t ∧ pb.1 ≠ k := by
  induction t with
  | nil => simp [tableRemove]
  | cons qb rest ih =>
    obtain ⟨q, b0⟩ := qb
    by_cases hq : q = k
    · subst hq
      simp only [tableRemove, if_true]
      rw [ih, List.mem_cons]
      constructor
      · rintro ⟨h1, h2⟩
        exact ⟨Or.inr h1, h2⟩
      · rintro ⟨h1 | h1, h2⟩
        · exact absurd (congrArg Prod.fst h1) h2
        · exact ⟨h1, h2⟩
    · simp only [tableRemove]
      rw [if_neg hq, List.mem_cons, List.mem_cons, ih]
      constructor
      · rintro (h1 | ⟨h1, h2⟩)
        · subst h1
          exact ⟨Or.inl rfl, hq⟩
        · exact ⟨Or.inr h1, h2⟩
      · rintro ⟨h1 | h1, h2⟩
        · exact Or.inl h1
        · exact Or.inr ⟨h1, h2⟩

theorem not_mem_map_fst_tableRemove (t : List (Nat × Nat)) (k : Nat) :
    k ∉ (tableRemove t k).map Prod.fst := by
  intro h
  obtain ⟨pb, hmem, hfst⟩ := List.mem_map.mp h
  exact (mem_tableRemove.mp hmem).2 hfst

theorem nodup_tableRemove {t : List (Nat × Nat)} {k : Nat}
    (h : (t.map Prod.fst).Nodup) : ((tableRemove t k).map Prod.fst).Nodup :=
  h.sublist ((tableRemove_sublist t k).map Prod.fst)

theorem nodup_tableInsert {t : List (Nat × Nat)} {k v : Nat}
    (h : (t.map Prod.fst).Nodup) :
    ((tableInsert t k v).map Prod.fst).Nodup := by
  simp only [tableInsert, List.map_cons]
  exact List.nodup_cons.mpr ⟨not_mem_map_fst_tableRemove t k, nodup_tableRemove h⟩

theorem mem_tableInsert {t : List (Nat × Nat)} {k v : Nat} {pb : Nat × Nat} :
    pb ∈ tableInsert t k v ↔ pb = (k, v) ∨ (pb ∈ t ∧ pb.1 ≠ k) := by
  simp only [tableInsert, List.mem_cons, mem_tableRemove]

/-! ### Sweep lemmas -/

/-- The sweep never changes a frame's buffer content or its pin count, and
never changes the number of frames. -/
theorem evictAux_frames : ∀ {fuel : Nat} {bp : BufferPool} {cp ex : Nat}
    {res : Option Nat} {bp' : BufferPool} {ex' : Nat},
    evictAux fuel bp cp ex = some (res, bp', ex') →
    bp'.buffers.length = bp.buffers.length ∧
    ∀ j : Nat, (bp'.buffers[j]?.map fun f : Frame => (f.buffer, f.pins))
        = (bp.buffers[j]?.map fun f : Frame => (f.buffer, f.pins)) := by
  intro fuel
  induction fuel with
  | zero =>
    intro bp cp ex res bp' ex' h
    simp [evictAux] at h
  | succ fu ih =>
    intro bp cp ex res bp' ex' h
    rw [evictAux] at h
    split at h
    · exact absurd h (by simp)
    case h_2 frame hg =>
      split at h
      · obtain ⟨rfl, rfl, rfl⟩ := Prod.mk.injEq .. ▸ Option.some.injEq .. ▸ h
        exact ⟨rfl, fun j => rfl⟩
      · split at h
        · obtain ⟨h1, h2⟩ := ih h
          refine ⟨by simpa using h1, fun j => ?_⟩
          rw [h2 j]
          by_cases hj : bp.next_victim_id = j
          · subst hj
            simp [List.getElem?_set_self', hg]
          · simp [List.getElem?_set_ne hj]
        · split at h
          · obtain ⟨rfl, rfl, rfl⟩ := Prod.mk.injEq .. ▸ Option.some.injEq .. ▸ h
            exact ⟨rfl, fun j => rfl⟩
          · have h2 := ih h
            exact h2

/-- A frame that stays pinned is never touched by the sweep. -/
theorem evictAux_pinned_frame : ∀ {fuel : Nat} {bp : BufferPool} {cp ex : Nat}
    {res : Option Nat} {bp' : BufferPool} {ex' : Nat},
    evictAux fuel bp cp ex = some (res, bp', ex') →
    ∀ j : Nat, ∀ f : Frame, bp.buffers[j]? = some f → 0 < f.pins →
      bp'.buffers[j]? = some f := by
  intro fuel
  induction fuel with
  | zero =>
    intro bp cp ex res bp' ex' h
    simp [evictAux] at h
  | succ fu ih =>
    intro bp cp ex res bp' ex' h
    rw [evictAux] at h
    split at h
    · exact absurd h (by simp)
    case h_2 frame hg =>
      split at h
      · simp only [Option.some.injEq, Prod.mk.injEq] at h
        obtain ⟨rfl, rfl, rfl⟩ := h
        exact fun j f hj _ => hj
      · split at h
        · rename_i hp0
          intro j f hj hf
          have hne : bp.next_victim_id ≠ j := by
            intro hcontra
            subst hcontra
            rw [hg] at hj
            simp only [Option.some.injEq] at hj
            subst hj
            omega
          exact ih h j f (by simpa [List.getElem?_set_ne hne] using hj) hf
        · split at h
          · simp only [Option.some.injEq, Prod.mk.injEq] at h
            obtain ⟨rfl, rfl, rfl⟩ := h
            exact fun j f hj _ => hj
          · intro j f hj hf
            exact ih h j f hj hf

/-- A returned victim is where the cursor stopped, and its usage counter
is zero in the resulting pool. -/
theorem evictAux_victim : ∀ {fuel : Nat} {bp : BufferPool} {cp ex : Nat}
    {v : Nat} {bp' : BufferPool} {ex' : Nat},
    evictAux fuel bp cp ex = some (some v, bp', ex') →
    bp'.next_victim_id = v ∧
      ∃ f : Frame, bp'.buffers[v]? = some f ∧ f.usage_count = 0 := by
  intro fuel
  induction fuel with
  | zero =>
    intro bp cp ex v bp' ex' h
    simp [evictAux] at h
  | succ fu ih =>
    intro bp cp ex v bp' ex' h
    rw [evictAux] at h
    split at h
    · exact absurd h (by simp)
    case h_2 frame hg =>
      split at h
      · rename_i husage
        simp only [Option.some.injEq, Prod.mk.injEq] at h
        obtain ⟨hv, rfl, rfl⟩ := h
        obtain rfl := hv
        exact ⟨rfl, frame, hg, husage⟩
      · split at h
        · have h2 := ih h
          exact h2
        · split at h
          · simp at h
          · have h2 := ih h
            exact h2

/-- The sweep preserves the pin invariant. -/
theorem evictAux_pinInv {fuel : Nat} {bp : BufferPool} {cp ex : Nat}
    {res : Option Nat} {bp' : BufferPool} {ex' : Nat}
    (h : evictAux fuel bp cp ex = some (res, bp', ex'))
    (hinv : PinInv bp) : PinInv bp' := by
  intro f' hf' hpins
  obtain ⟨j, hj⟩ := List.getElem?_of_mem hf'
  have hmap := (evictAux_frames h).2 j
  rw [hj] at hmap
  cases hb : bp.buffers[j]? with
  | none => rw [hb] at hmap; simp at hmap
  | some f =>
    rw [hb] at hmap
    simp only [Option.map_some', Option.some.injEq, Prod.mk.injEq] at hmap
    obtain ⟨hbuf, hpin⟩ := hmap
    have hfp : 0 < f.pins := by omega
    have hsame := evictAux_pinned_frame h j f hb hfp
    rw [hj] at hsame
    simp only [Option.some.injEq] at hsame
    subst hsame
    exact hinv _ (List.getElem?_mem hb) hfp

theorem sum_map_usage_set (g : Frame) {l : List Frame} {i : Nat} {f : Frame}
    (h : l[i]? = some f) :
    ((l.set i g).map Frame.usage_count).sum + f.usage_count
      = (l.map Frame.usage_count).sum + g.usage_count := by
  induction l generalizing i with
  | nil => simp at h
  | cons a t ihl =>
    cases i with
    | zero =>
      simp only [List.getElem?_cons_zero, Option.some.injEq] at h
      subst h
      simp only [List.set_cons_zero, List.map_cons, List.sum_cons]
      omega
    | succ j =>
      simp only [List.getElem?_cons_succ] at h
      have h2 := ihl h
      simp only [List.set_cons_succ, List.map_cons, List.sum_cons]
      omega

/-- Decrementing a nonzero usage counter lowers the weighted usage sum by
one pool length. -/
theorem sumUsage_decrement_mul {l : List Frame} {i : Nat} {frame : Frame}
    (hg : l[i]? = some frame) (hu : frame.usage_count ≠ 0) :
    (l.map Frame.usage_count).sum * l.length
      = ((l.set i { frame with usage_count := frame.usage_count - 1 }).map
          Frame.usage_count).sum * l.length + l.length := by
  have h2 := sum_map_usage_set { frame with usage_count := frame.usage_count - 1 } hg
  have h3 : ({ frame with usage_count := frame.usage_count - 1 } : Frame).usage_count
      = frame.usage_count - 1 := rfl
  rw [h3] at h2
  have hAB : ((l.set i { frame with usage_count := frame.usage_count - 1 }).map
      Frame.usage_count).sum + 1 = (l.map Frame.usage_count).sum := by omega
  rw [← hAB, Nat.succ_mul]

/-- The scan loop always exits: with enough fuel the sweep returns an
answer whenever the cursor is in range. -/
theorem evictAux_isSome : ∀ {fuel : Nat} (bp : BufferPool) (cp ex : Nat),
    bp.next_victim_id < bp.buffers.length →
    cp < bp.buffers.length →
    sumUsage bp * bp.buffers.length + (bp.buffers.length - cp) ≤ fuel →
    (evictAux fuel bp cp ex).isSome := by
  intro fuel
  induction fuel with
  | zero =>
    intro bp cp ex hcur hcp hfuel
    exact absurd hfuel (by omega)
  | succ fu ih =>
    intro bp cp ex hcur hcp hfuel
    have hlen0 : 0 < bp.buffers.length := by omega
    rw [evictAux]
    split
    · rename_i hnone
      rw [List.getElem?_eq_getElem hcur] at hnone
      exact absurd hnone (by simp)
    case h_2 frame hg =>
      split
      · simp
      · rename_i husage
        split
        · rename_i hp0
          have hmul := sumUsage_decrement_mul hg husage
          apply ih
          · simpa [BufferPool.increment_id, BufferPool.size] using Nat.mod_lt _ hlen0
          · simpa using hlen0
          · simp only [sumUsage, List.length_set] at hfuel ⊢
            omega
        · split
          · simp
          · rename_i hstreak
            simp only [BufferPool.size, not_le] at hstreak
            apply ih
            · simpa [BufferPool.increment_id, BufferPool.size] using Nat.mod_lt _ hlen0
            · simpa using hstreak
            · simp only [sumUsage] at hfuel ⊢
              omega

/-- With every frame pinned (and the pin invariant in force), the sweep
aborts with no victim after examining exactly one frame per remaining
streak slot, leaving the frames unchanged. -/
theorem evictAux_allPinned : ∀ {fuel : Nat} {bp : BufferPool} {cp ex : Nat}
    {res : Option Nat} {bp' : BufferPool} {ex' : Nat},
    evictAux fuel bp cp ex = some (res, bp', ex') →
    (∀ f ∈ bp.buffers, 0 < f.pins ∧ 0 < f.usage_count) →
    cp < bp.buffers.length →
    res = none ∧ ex' = ex + (bp.buffers.length - cp) ∧ bp'.buffers = bp.buffers := by
  intro fuel
  induction fuel with
  | zero =>
    intro bp cp ex res bp' ex' h hpin hcp
    simp [evictAux] at h
  | succ fu ih =>
    intro bp cp ex res bp' ex' h hpin hcp
    rw [evictAux] at h
    split at h
    · exact absurd h (by simp)
    case h_2 frame hg =>
      have hmem : frame ∈ bp.buffers := List.getElem?_mem hg
      obtain ⟨hfp, hfu⟩ := hpin frame hmem
      split at h
      · rename_i husage
        exfalso
        omega
      · split at h
        · rename_i hp0
          exfalso
          omega
        · split at h
          · rename_i hstreak
            simp only [Option.some.injEq, Prod.mk.injEq] at h
            obtain ⟨rfl, rfl, rfl⟩ := h
            simp only [BufferPool.size] at hstreak
            exact ⟨rfl, by omega, rfl⟩
          · rename_i hstreak
            simp only [BufferPool.size, not_le] at hstreak
            have h2 := ih h hpin hstreak
            obtain ⟨hres, hex, hbuf⟩ := h2
            have hex2 : ex' = (ex + 1) + (bp.buffers.length - (cp + 1)) := hex
            have hbuf2 : bp'.buffers = bp.buffers := hbuf
            exact ⟨hres, by omega, hbuf2⟩

/-! ### Manager-level helper lemmas -/

/-- Unfold a successful `evict` to its sweep equation. -/
theorem evict_eq_some {bp : BufferPool} {v : Nat} {bp' : BufferPool} {ex : Nat}
    (h : bp.evict = (some v, bp', ex)) :
    evictAux (evictFuel bp) bp 0 0 = some (some v, bp', ex) := by
  cases haux : evictAux (evictFuel bp) bp 0 0 with
  | none =>
    simp only [BufferPool.evict, haux] at h
    simp at h
  | some r =>
    simp only [BufferPool.evict, haux] at h
    exact congrArg some h

/-- Setting a slot to a frame that satisfies the pin property preserves the
pin invariant. -/
theorem pinInv_of_set (bp : BufferPool) (i : Nat) (g : Frame) (c : Nat)
    (hinv : PinInv bp) (hg : 0 < g.pins → 0 < g.usage_count) :
    PinInv ⟨bp.buffers.set i g, c⟩ := by
  intro f' hf' hp
  obtain ⟨j, hj⟩ := List.getElem?_of_mem hf'
  rw [List.getElem?_set] at hj
  by_cases hij : i = j
  · rw [if_pos hij] at hj
    by_cases hlt : i < bp.buffers.length
    · rw [if_pos hlt] at hj
      simp only [Option.some.injEq] at hj
      subst hj
      exact hg hp
    · rw [if_neg hlt] at hj
      cases hj
  · rw [if_neg hij] at hj
    exact hinv f' (List.getElem?_mem hj) hp

/-- `missRead` never produces the panic marker. -/
theorem missRead_ne_panicked (m : BufferPoolManager) (pool1 : BufferPool)
    (buffer_id : Nat) (frame : Frame) (page_id : Nat) (tr0 : List DiskOp) :
    (missRead m pool1 buffer_id frame page_id tr0).1 ≠ .panicked := by
  unfold missRead
  cases m.disk.readResult page_id <;> simp

/-- Frame-wise equality of buffers (ignoring usage/pins) transfers the
table/frame invariant to a pool with the same buffer contents. -/
theorem tableInv_of_buffer_eq {m : BufferPoolManager} (bp2 : BufferPool)
    (hinv : TableInv m)
    (heq : ∀ j : Nat, (bp2.buffers[j]?.map fun f : Frame => f.buffer)
        = (m.pool.buffers[j]?.map fun f : Frame => f.buffer)) :
    TableInv { m with pool := bp2 } := by
  obtain ⟨hnd, hent⟩ := hinv
  refine ⟨hnd, ?_⟩
  intro pb hpb
  obtain ⟨f0, hf0, hpid⟩ := hent pb hpb
  have h2 := heq pb.2
  rw [hf0] at h2
  cases hb : bp2.buffers[pb.2]? with
  | none =>
    rw [hb] at h2
    simp at h2
  | some f1 =>
    rw [hb] at h2
    simp only [Option.map_some', Option.some.injEq] at h2
    refine ⟨f1, rfl, ?_⟩
    rw [h2]
    exact hpid

/-- Weaken the sweep's (buffer, pins) preservation to buffers only. -/
theorem buffer_map_of_frames_eq {l1 l2 : List Frame}
    (h : ∀ j : Nat, (l1[j]?.map fun f : Frame => (f.buffer, f.pins))
        = (l2[j]?.map fun f : Frame => (f.buffer, f.pins))) :
    ∀ j : Nat, (l1[j]?.map fun f : Frame => f.buffer)
        = (l2[j]?.map fun f : Frame => f.buffer) := by
  intro j
  have h2 := h j
  cases hx : l1[j]? with
  | none =>
    rw [hx] at h2
    cases hy : l2[j]? with
    | none => rfl
    | some fy => rw [hy] at h2; simp at h2
  | some fx =>
    rw [hx] at h2
    cases hy : l2[j]? with
    | none => rw [hy] at h2; simp at h2
    | some fy =>
      rw [hy] at h2
      simp only [Option.map_some', Option.some.injEq, Prod.mk.injEq] at h2
      simp only [Option.map_some', Option.some.injEq]
      exact h2.1

/-- Replacing a slot with a frame holding the same buffer leaves the
buffer view of the pool unchanged. -/
theorem buffer_map_set_eq {l : List Frame} {i : Nat} {f g : Frame}
    (hf : l[i]? = some f) (hbuf : g.buffer = f.buffer) :
    ∀ j : Nat, ((l.set i g)[j]?.map fun fr : Frame => fr.buffer)
        = (l[j]?.map fun fr : Frame => fr.buffer) := by
  intro j
  by_cases hij : i = j
  · subst hij
    simp [List.getElem?_set_self', hf, hbuf]
  · simp [List.getElem?_set_ne hij]

theorem tableInv_init (disk : DiskManager) (n : Nat) :
    TableInv (initManager disk n) := by
  constructor
  · simp [initManager]
  · intro pb hpb
    simp [initManager] at hpb

theorem tableInv_drop (m : BufferPoolManager) (i : Nat)
    (hinv : TableInv m) : TableInv (dropHandle m i) := by
  unfold dropHandle
  cases hb : m.pool.buffers[i]? with
  | none => exact hinv
  | some f => exact tableInv_of_buffer_eq _ hinv (buffer_map_set_eq hb rfl)

/-- Distinct keys make table entries with equal keys identical. -/
theorem nodup_keys_eq {t : List (Nat × Nat)}
    (hnd : (t.map Prod.fst).Nodup) {x y : Nat × Nat}
    (hx : x ∈ t) (hy : y ∈ t) (h1 : x.1 = y.1) : x = y := by
  induction t with
  | nil => simp at hx
  | cons a rest ih =>
    simp only [List.map_cons, List.nodup_cons] at hnd
    obtain ⟨hna, hnd2⟩ := hnd
    rcases List.mem_cons.mp hx with rfl | hx2
    · rcases List.mem_cons.mp hy with rfl | hy2
      · rfl
      · exact absurd (h1 ▸ List.mem_map_of_mem Prod.fst hy2) hna
    · rcases List.mem_cons.mp hy with rfl | hy2
      · exact absurd (h1 ▸ List.mem_map_of_mem Prod.fst hx2) (by
          rw [← h1] at hna ⊢
          exact fun hc => hna (List.mem_map_of_mem Prod.fst hx2))
      · exact ih hnd2 hx2 hy2

/-- The table/frame invariant bounds the table by the pool capacity. -/
theorem tableInv_length (m : BufferPoolManager) (hinv : TableInv m) :
    m.page_table.length ≤ m.pool.buffers.length := by
  obtain ⟨hnd, hent⟩ := hinv
  have hpairs : m.page_table.Nodup := hnd.of_map
  have hsnd : (m.page_table.map Prod.snd).Nodup := by
    refine List.Nodup.map_on ?_ hpairs
    intro x hx y hy hxy
    obtain ⟨fx, hfx, hpx⟩ := hent x hx
    obtain ⟨fy, hfy, hpy⟩ := hent y hy
    have hfxy : fx = fy := by
      rw [hxy] at hfx
      rw [hfx] at hfy
      exact (Option.some.injEq _ _).mp hfy
    have h1 : x.1 = y.1 := by rw [← hpx, ← hpy, hfxy]
    exact nodup_keys_eq hnd hx hy h1
  have hsub : (m.page_table.map Prod.snd) ⊆ List.range m.pool.buffers.length := by
    intro b hb
    obtain ⟨pb, hpb, rfl⟩ := List.mem_map.mp hb
    obtain ⟨f, hf, _⟩ := hent pb hpb
    exact List.mem_range.mpr (List.getElem?_eq_some.mp hf).1
  have hle := (List.subperm_of_subset hsnd hsub).length_le
  simpa using hle

/-- A successful read-fill preserves the table/frame invariant: the old
entry is removed, the new entry points at the refilled frame. -/
theorem missRead_tableInv {m : BufferPoolManager} {pool1 : BufferPool}
    {buffer_id : Nat} {frame : Frame} {page_id : Nat} {tr0 : List DiskOp}
    {data : Page}
    (hinv : TableInv m)
    (hbufeq : ∀ j : Nat, (pool1.buffers[j]?.map fun f : Frame => f.buffer)
        = (m.pool.buffers[j]?.map fun f : Frame => f.buffer))
    (hframe : pool1.buffers[buffer_id]? = some frame)
    (hread : m.disk.readResult page_id = some data) :
    TableInv (missRead m pool1 buffer_id frame page_id tr0).2.1 := by
  obtain ⟨hnd, hent⟩ := hinv
  simp only [missRead, hread]
  constructor
  · exact nodup_tableInsert (nodup_tableRemove hnd)
  · intro pb hpb
    rw [mem_tableInsert] at hpb
    rcases hpb with rfl | ⟨hmem, hnewne⟩
    · simp only [List.getElem?_set_self', hframe, Option.map_some', Function.const_apply]
      exact ⟨_, rfl, rfl⟩
    · obtain ⟨holdmem, holdne⟩ := mem_tableRemove.mp hmem
      obtain ⟨f0, hf0, hpid⟩ := hent pb holdmem
      have h2 := hbufeq pb.2
      rw [hf0] at h2
      cases hb : pool1.buffers[pb.2]? with
      | none =>
        rw [hb] at h2
        simp at h2
      | some f1 =>
        rw [hb] at h2
        simp only [Option.map_some', Option.some.injEq] at h2
        by_cases hvb : buffer_id = pb.2
        · exfalso
          subst hvb
          rw [hframe] at hb
          obtain rfl := (Option.some.injEq _ _).mp hb
          apply holdne
          rw [← hpid, h2]
        · refine ⟨f1, ?_, by rw [h2]; exact hpid⟩
          simp [List.getElem?_set_ne hvb, hb]

/-- `fetch_page` preserves the table/frame invariant on every path except a
failed read-fill (an I/O error whose trace contains a read). -/
theorem tableInv_fetch (m : BufferPoolManager) (page_id : Nat)
    (hinv : TableInv m)
    (hnoread : (fetch_page m page_id).1 = .err .io →
        ∀ p : Nat, DiskOp.read p ∉ (fetch_page m page_id).2.2) :
    TableInv (fetch_page m page_id).2.1 := by
  cases ht : tableGet m.page_table page_id with
  | some b =>
    cases hb : m.pool.buffers[b]? with
    | none =>
      simp only [fetch_page, ht, hb]
      exact hinv
    | some f =>
      simp only [fetch_page, ht, hb]
      exact tableInv_of_buffer_eq _ hinv (buffer_map_set_eq hb rfl)
  | none =>
    cases haux : evictAux (evictFuel m.pool) m.pool 0 0 with
    | none =>
      simp only [fetch_page, ht, BufferPool.evict, haux]
      exact hinv
    | some r =>
      obtain ⟨res, pool1, ex⟩ := r
      have hbufeq := buffer_map_of_frames_eq (evictAux_frames haux).2
      cases res with
      | none =>
        simp only [fetch_page, ht, BufferPool.evict, haux]
        exact tableInv_of_buffer_eq _ hinv hbufeq
      | some v =>
        obtain ⟨hcur, fv, hfv, hu⟩ := evictAux_victim haux
        by_cases hpins : fv.pins ≠ 0
        · simp only [fetch_page, ht, BufferPool.evict, haux, hfv, if_pos hpins]
          exact tableInv_of_buffer_eq _ hinv hbufeq
        · by_cases hd : fv.buffer.is_dirty
          · by_cases hw : m.disk.writeOk fv.buffer.page_id
            · cases hread : m.disk.readResult page_id with
              | none =>
                exfalso
                have h1 : (fetch_page m page_id).1 = .err .io := by
                  simp [fetch_page, ht, BufferPool.evict, haux, hfv,
                    if_neg hpins, if_pos hd, if_pos hw, missRead, hread]
                refine hnoread h1 page_id ?_
                simp [fetch_page, ht, BufferPool.evict, haux, hfv,
                  if_neg hpins, if_pos hd, if_pos hw, missRead, hread]
              | some data =>
                simp only [fetch_page, ht, BufferPool.evict, haux, hfv,
                  if_neg hpins, if_pos hd, if_pos hw]
                exact missRead_tableInv hinv hbufeq hfv hread
            · simp only [fetch_page, ht, BufferPool.evict, haux, hfv,
                if_neg hpins, if_pos hd, if_neg hw]
              exact tableInv_of_buffer_eq _ hinv hbufeq
          · cases hread : m.disk.readResult page_id with
            | none =>
              exfalso
              have h1 : (fetch_page m page_id).1 = .err .io := by
                simp [fetch_page, ht, BufferPool.evict, haux, hfv,
                  if_neg hpins, if_neg hd, missRead, hread]
              refine hnoread h1 page_id ?_
              simp [fetch_page, ht, BufferPool.evict, haux, hfv,
                if_neg hpins, if_neg hd, missRead, hread]
            | some data =>
              simp only [fetch_page, ht, BufferPool.evict, haux, hfv,
                if_neg hpins, if_neg hd]
              exact missRead_tableInv hinv hbufeq hfv hread

/-- Rebuild the table-range invariant after a step whose entries either
come from the old table or are explicitly in range. -/
theorem tableRange_mk {m : BufferPoolManager} (bp2 : BufferPool)
    (t2 : List (Nat × Nat))
    (hlen : bp2.buffers.length = m.pool.buffers.length)
    (hsub : ∀ pb ∈ t2, pb ∈ m.page_table ∨ pb.2 < bp2.buffers.length)
    (htr : TableRange m) :
    TableRange { disk := m.disk, pool := bp2, page_table := t2 } := by
  intro pb hpb
  rcases hsub pb hpb with h | h
  · have h2 := htr pb h
    simp only [BufferPool.size] at h2 ⊢
    omega
  · simpa [BufferPool.size] using h

theorem reachInv_init (disk : DiskManager) (n : Nat) :
    PinInv (initManager disk n).pool ∧ TableRange (initManager disk n) := by
  constructor
  · intro f hf hp
    simp only [initManager, List.mem_replicate] at hf
    rw [hf.2] at hp
    simp [initFrame] at hp
  · intro pb hpb
    simp [initManager] at hpb

theorem reachInv_drop (m : BufferPoolManager) (i : Nat)
    (hpin : PinInv m.pool) (htr : TableRange m) :
    PinInv (dropHandle m i).pool ∧ TableRange (dropHandle m i) := by
  unfold dropHandle
  cases hb : m.pool.buffers[i]? with
  | none => exact ⟨hpin, htr⟩
  | some f =>
    constructor
    · refine pinInv_of_set m.pool i _ _ hpin ?_
      intro hp
      have hp2 : 0 < f.pins := by
        have h3 : ({ f with pins := f.pins - 1 } : Frame).pins = f.pins - 1 := rfl
        omega
      exact hpin f (List.getElem?_mem hb) hp2
    · refine tableRange_mk _ _ ?_ (fun pb hpb => Or.inl hpb) htr
      simp

theorem reachInv_fetch (m : BufferPoolManager) (page_id : Nat)
    (hpin : PinInv m.pool) (htr : TableRange m) :
    PinInv (fetch_page m page_id).2.1.pool ∧
      TableRange (fetch_page m page_id).2.1 := by
  cases ht : tableGet m.page_table page_id with
  | some b =>
    cases hb : m.pool.buffers[b]? with
    | none =>
      simp only [fetch_page, ht, hb]
      exact ⟨hpin, htr⟩
    | some f =>
      simp only [fetch_page, ht, hb]
      constructor
      · refine pinInv_of_set m.pool b _ _ hpin ?_
        intro hp
        exact Nat.succ_pos _
      · refine tableRange_mk _ _ ?_ (fun pb hpb => Or.inl hpb) htr
        simp
  | none =>
    cases haux : evictAux (evictFuel m.pool) m.pool 0 0 with
    | none =>
      simp only [fetch_page, ht, BufferPool.evict, haux]
      exact ⟨hpin, htr⟩
    | some r =>
      obtain ⟨res, pool1, ex⟩ := r
      have hpin1 : PinInv pool1 := evictAux_pinInv haux hpin
      have hlen1 : pool1.buffers.length = m.pool.buffers.length :=
        (evictAux_frames haux).1
      cases res with
      | none =>
        simp only [fetch_page, ht, BufferPool.evict, haux]
        exact ⟨hpin1, tableRange_mk _ _ hlen1 (fun pb hpb => Or.inl hpb) htr⟩
      | some v =>
        obtain ⟨hcur, fv, hfv, hu⟩ := evictAux_victim haux
        have hvlt : v < pool1.buffers.length := (List.getElem?_eq_some.mp hfv).1
        by_cases hpins : fv.pins ≠ 0
        · simp only [fetch_page, ht, BufferPool.evict, haux, hfv, if_pos hpins]
          exact ⟨hpin1, tableRange_mk _ _ hlen1 (fun pb hpb => Or.inl hpb) htr⟩
        · by_cases hd : fv.buffer.is_dirty
          · by_cases hw : m.disk.writeOk fv.buffer.page_id
            · cases hread : m.disk.readResult page_id with
              | none =>
                simp only [fetch_page, ht, BufferPool.evict, haux, hfv,
                  if_neg hpins, if_pos hd, if_pos hw, missRead, hread]
                constructor
                · refine pinInv_of_set pool1 v _ _ hpin1 ?_
                  intro hp
                  exact hpin1 fv (List.getElem?_mem hfv) hp
                · refine tableRange_mk _ _ ?_ (fun pb hpb => Or.inl hpb) htr
                  simpa using hlen1
              | some data =>
                simp only [fetch_page, ht, BufferPool.evict, haux, hfv,
                  if_neg hpins, if_pos hd, if_pos hw, missRead, hread]
                constructor
                · refine pinInv_of_set pool1 v _ _ hpin1 ?_
                  intro hp
                  exact Nat.succ_pos _
                · refine tableRange_mk _ _ ?_ ?_ htr
                  · simpa using hlen1
                  · intro pb hpb
                    rcases mem_tableInsert.mp hpb with rfl | ⟨hmem, _⟩
                    · right
                      simpa using hvlt
                    · exact Or.inl (mem_tableRemove.mp hmem).1
            · simp only [fetch_page, ht, BufferPool.evict, haux, hfv,
                if_neg hpins, if_pos hd, if_neg hw]
              exact ⟨hpin1, tableRange_mk _ _ hlen1 (fun pb hpb => Or.inl hpb) htr⟩
          · cases hread : m.disk.readResult page_id with
            | none =>
              simp only [fetch_page, ht, BufferPool.evict, haux, hfv,
                if_neg hpins, if_neg hd, missRead, hread]
              constructor
              · refine pinInv_of_set pool1 v _ _ hpin1 ?_
                intro hp
                exact hpin1 fv (List.getElem?_mem hfv) hp
              · refine tableRange_mk _ _ ?_ (fun pb hpb => Or.inl hpb) htr
                simpa using hlen1
            | some data =>
              simp only [fetch_page, ht, BufferPool.evict, haux, hfv,
                if_neg hpins, if_neg hd, missRead, hread]
              constructor
              · refine pinInv_of_set pool1 v _ _ hpin1 ?_
                intro hp
                exact Nat.succ_pos _
              · refine tableRange_mk _ _ ?_ ?_ htr
                · simpa using hlen1
                · intro pb hpb
                  rcases mem_tableInsert.mp hpb with rfl | ⟨hmem, _⟩
                  · right
                    simpa using hvlt
                  · exact Or.inl (mem_tableRemove.mp hmem).1

/-- Every reachable manager satisfies the pin and table-range invariants. -/
theorem reachable_inv {m : BufferPoolManager} (h : Reachable m) :
    PinInv m.pool ∧ TableRange m := by
  induction h with
  | init disk n => exact reachInv_init disk n
  | fetch m page_id _ ih => exact reachInv_fetch m page_id ih.1 ih.2
  | drop m i _ ih => exact reachInv_drop m i ih.1 ih.2

/-! ### Claim theorems -/

/-- C9: for every pool state with capacity N ≥ 1 (cursor in range, as the
modular cursor arithmetic guarantees), the scan loop of `evict` always
exits: run with the fuel `evict` uses, the sweep returns an answer — a
victim or "no victim" — instead of exhausting its fuel. -/
theorem evict_terminates (bp : BufferPool)
    (hlen : 0 < bp.buffers.length)
    (hcur : bp.next_victim_id < bp.buffers.length) :
    (evictAux (evictFuel bp) bp 0 0).isSome := by
  apply evictAux_isSome bp 0 0 hcur hlen
  simp only [evictFuel, BufferPool.size]
  omega

theorem evict_terminates_witness :
    (evictAux (evictFuel ⟨[⟨2, ⟨0, [], false⟩, 1⟩], 0⟩)
      ⟨[⟨2, ⟨0, [], false⟩, 1⟩], 0⟩ 0 0).isSome :=
  evict_terminates ⟨[⟨2, ⟨0, [], false⟩, 1⟩], 0⟩ (by decide) (by decide)

/-- C1: whenever the sweep selects a victim, the victim is the slot the
cursor stopped at (the cursor is not advanced past it) and that frame's
usage counter is zero; in particular, for any capacity N ≥ 1 with all
usage counters zero, `evict` returns the frame at the current cursor
position after examining exactly one frame, leaving the pool unchanged. -/
theorem clock_sweep_zero_usage_victim :
    (∀ (bp : BufferPool) (v : Nat) (bp' : BufferPool) (ex : Nat),
      bp.evict = (some v, bp', ex) →
      bp'.next_victim_id = v ∧
        ∃ f : Frame, bp'.buffers[v]? = some f ∧ f.usage_count = 0) ∧
    (∀ bp : BufferPool, 0 < bp.buffers.length →
      bp.next_victim_id < bp.buffers.length →
      (∀ f ∈ bp.buffers, f.usage_count = 0) →
      bp.evict = (some bp.next_victim_id, bp, 1)) := by
  constructor
  · intro bp v bp' ex h
    exact evictAux_victim (evict_eq_some h)
  · intro bp hlen hcur hzero
    have hg : bp.buffers[bp.next_victim_id]? = some bp.buffers[bp.next_victim_id] :=
      List.getElem?_eq_getElem hcur
    have hz : (bp.buffers[bp.next_victim_id]).usage_count = 0 :=
      hzero _ (List.getElem_mem hcur)
    simp [BufferPool.evict, evictFuel, evictAux, hg, hz]

theorem clock_sweep_zero_usage_victim_witness :
    (⟨[⟨0, ⟨0, [], false⟩, 0⟩], 0⟩ : BufferPool).evict
        = (some 0, ⟨[⟨0, ⟨0, [], false⟩, 0⟩], 0⟩, 1) ∧
    ∃ f : Frame,
      (⟨[⟨0, ⟨0, [], false⟩, 0⟩], 0⟩ : BufferPool).buffers[0]? = some f ∧
      f.usage_count = 0 := by
  have h := clock_sweep_zero_usage_victim.2 ⟨[⟨0, ⟨0, [], false⟩, 0⟩], 0⟩
    (by decide) (by decide) (by decide)
  exact ⟨h, (clock_sweep_zero_usage_victim.1 _ 0 _ 1 h).2⟩

/-- C5: if every frame is pinned (with the usage counters positive, as the
pin invariant of reachable states forces), `evict` returns "no victim"
after examining exactly N frames without touching any frame, and a miss of
`fetch_page` then fails with `NoFreeBuffer`, an error kind distinct from
the I/O error kind. -/
theorem all_pinned_no_victim (m : BufferPoolManager) (page_id : Nat)
    (hlen : 0 < m.pool.buffers.length)
    (hcur : m.pool.next_victim_id < m.pool.buffers.length)
    (hpin : ∀ f ∈ m.pool.buffers, 0 < f.pins ∧ 0 < f.usage_count)
    (hmiss : tableGet m.page_table page_id = none) :
    (∃ bp', m.pool.evict = (none, bp', m.pool.buffers.length) ∧
      bp'.buffers = m.pool.buffers) ∧
    (fetch_page m page_id).1 = .err .noFreeBuffer ∧
    Error.noFreeBuffer ≠ Error.io := by
  have hsome : (evictAux (evictFuel m.pool) m.pool 0 0).isSome := by
    apply evictAux_isSome _ 0 0 hcur hlen
    simp only [evictFuel, BufferPool.size]
    omega
  obtain ⟨r, hr⟩ := Option.isSome_iff_exists.mp hsome
  obtain ⟨res, bp', ex⟩ := r
  obtain ⟨hres, hex, hbuf⟩ := evictAux_allPinned hr hpin hlen
  subst hres
  have hex2 : ex = m.pool.buffers.length := by omega
  subst hex2
  refine ⟨⟨bp', by simp [BufferPool.evict, hr], hbuf⟩, ?_, by simp⟩
  simp [fetch_page, hmiss, BufferPool.evict, hr]

theorem all_pinned_no_victim_witness :
    (fetch_page ⟨⟨fun _ => some [], fun _ => true⟩,
      ⟨[⟨1, ⟨0, [], false⟩, 1⟩], 0⟩, []⟩ 7).1 = .err .noFreeBuffer :=
  (all_pinned_no_victim ⟨⟨fun _ => some [], fun _ => true⟩,
    ⟨[⟨1, ⟨0, [], false⟩, 1⟩], 0⟩, []⟩ 7
    (by decide) (by decide) (by decide) (by decide)).2.1

/-- C6: a `fetch_page` on a resident page is a hit: it returns a handle to
the same buffer of that frame (one more live handle), increments exactly
that frame's usage counter, and performs no disk access. -/
theorem fetch_page_hit (m : BufferPoolManager) (page_id b : Nat) (f : Frame)
    (hb : tableGet m.page_table page_id = some b)
    (hf : m.pool.buffers[b]? = some f) :
    (fetch_page m page_id).1 = .ok b ∧
    (fetch_page m page_id).2.2 = [] ∧
    (fetch_page m page_id).2.1.pool.buffers[b]? =
      some { f with usage_count := f.usage_count + 1, pins := f.pins + 1 } := by
  simp only [fetch_page, hb, hf]
  refine ⟨trivial, trivial, ?_⟩
  simp [List.getElem?_set_self', hf]

theorem fetch_page_hit_witness :
    (fetch_page ⟨⟨fun _ => some [], fun _ => true⟩,
      ⟨[⟨1, ⟨5, [7], false⟩, 1⟩], 0⟩, [(5, 0)]⟩ 5).2.2 = [] :=
  (fetch_page_hit ⟨⟨fun _ => some [], fun _ => true⟩,
    ⟨[⟨1, ⟨5, [7], false⟩, 1⟩], 0⟩, [(5, 0)]⟩ 5 0 ⟨1, ⟨5, [7], false⟩, 1⟩
    (by decide) (by decide)).2.1

/-- C10: a hit mutates nothing except the hit frame's usage counter (and
its live-handle count, by returning the new handle): the lookup table, the
sweep cursor, the disk, every other frame, and the hit frame's buffer
(bytes, `PageId`, dirty flag) are unchanged. -/
theorem fetch_page_hit_frame_effect (m : BufferPoolManager) (page_id b : Nat)
    (f : Frame)
    (hb : tableGet m.page_table page_id = some b)
    (hf : m.pool.buffers[b]? = some f) :
    (fetch_page m page_id).2.1.page_table = m.page_table ∧
    (fetch_page m page_id).2.1.pool.next_victim_id = m.pool.next_victim_id ∧
    (fetch_page m page_id).2.1.disk = m.disk ∧
    (∀ j : Nat, j ≠ b →
      (fetch_page m page_id).2.1.pool.buffers[j]? = m.pool.buffers[j]?) ∧
    (fetch_page m page_id).2.1.pool.buffers[b]? =
      some { f with usage_count := f.usage_count + 1, pins := f.pins + 1 } := by
  simp only [fetch_page, hb, hf]
  refine ⟨trivial, trivial, trivial, ?_, ?_⟩
  · intro j hj
    simp [List.getElem?_set_ne fun h2 => hj h2.symm]
  · simp [List.getElem?_set_self', hf]

theorem fetch_page_hit_frame_effect_witness :
    (fetch_page ⟨⟨fun _ => some [], fun _ => true⟩,
      ⟨[⟨1, ⟨5, [7], false⟩, 1⟩], 0⟩, [(5, 0)]⟩ 5).2.1.page_table = [(5, 0)] :=
  (fetch_page_hit_frame_effect ⟨⟨fun _ => some [], fun _ => true⟩,
    ⟨[⟨1, ⟨5, [7], false⟩, 1⟩], 0⟩, [(5, 0)]⟩ 5 0 ⟨1, ⟨5, [7], false⟩, 1⟩
    (by decide) (by decide)).1

/-- C3: when the victim of a miss is dirty and the write-back of its old
page fails, `fetch_page` returns the I/O error and the victim frame is
left exactly as it was — old `PageId`, old dirty flag, old bytes — and the
lookup table is untouched. -/
theorem write_back_failure_preserves_victim (m : BufferPoolManager)
    (page_id v : Nat) (bp1 : BufferPool) (ex : Nat) (f : Frame)
    (hmiss : tableGet m.page_table page_id = none)
    (hev : m.pool.evict = (some v, bp1, ex))
    (hf : bp1.buffers[v]? = some f)
    (hp : f.pins = 0)
    (hd : f.buffer.is_dirty = true)
    (hw : m.disk.writeOk f.buffer.page_id = false) :
    (fetch_page m page_id).1 = .err .io ∧
    (fetch_page m page_id).2.1.pool.buffers[v]? = some f ∧
    (fetch_page m page_id).2.1.page_table = m.page_table ∧
    ∀ f0 : Frame, m.pool.buffers[v]? = some f0 → f0.buffer = f.buffer := by
  have hr := evict_eq_some hev
  have hp2 : ¬(f.pins ≠ 0) := by simp [hp]
  have hw2 : ¬(m.disk.writeOk f.buffer.page_id = true) := by simp [hw]
  simp only [fetch_page, hmiss, BufferPool.evict, hr, hf, if_neg hp2,
    if_pos hd, if_neg hw2]
  refine ⟨trivial, trivial, trivial, ?_⟩
  intro f0 hf0
  have hmap := (evictAux_frames hr).2 v
  rw [hf, hf0] at hmap
  simp only [Option.map_some', Option.some.injEq, Prod.mk.injEq] at hmap
  exact hmap.1.symm

theorem write_back_failure_preserves_victim_witness :
    (fetch_page ⟨⟨fun _ => some [], fun p => p ≠ 9⟩,
      ⟨[⟨0, ⟨9, [4], true⟩, 0⟩], 0⟩, [(9, 0)]⟩ 7).1 = .err .io :=
  (write_back_failure_preserves_victim ⟨⟨fun _ => some [], fun p => p ≠ 9⟩,
    ⟨[⟨0, ⟨9, [4], true⟩, 0⟩], 0⟩, [(9, 0)]⟩ 7 0
    ⟨[⟨0, ⟨9, [4], true⟩, 0⟩], 0⟩ 1 ⟨0, ⟨9, [4], true⟩, 0⟩
    (by decide) (by decide) (by decide) (by decide) (by decide) (by decide)).1

/-- C4: on a miss whose read of the requested page fails (the write-back,
if any, having succeeded), `fetch_page` returns the I/O error and the
lookup table is untouched — in particular it holds no mapping for the
requested `PageId`; the table update only happens after a successful
read. -/
theorem read_failure_no_mapping (m : BufferPoolManager) (page_id v : Nat)
    (bp1 : BufferPool) (ex : Nat) (f : Frame)
    (hmiss : tableGet m.page_table page_id = none)
    (hev : m.pool.evict = (some v, bp1, ex))
    (hf : bp1.buffers[v]? = some f)
    (hp : f.pins = 0)
    (hwd : f.buffer.is_dirty = true → m.disk.writeOk f.buffer.page_id = true)
    (hread : m.disk.readResult page_id = none) :
    (fetch_page m page_id).1 = .err .io ∧
    (fetch_page m page_id).2.1.page_table = m.page_table ∧
    tableGet (fetch_page m page_id).2.1.page_table page_id = none := by
  have hr := evict_eq_some hev
  have hp2 : ¬(f.pins ≠ 0) := by simp [hp]
  cases hd : f.buffer.is_dirty with
  | true =>
    simp only [fetch_page, hmiss, BufferPool.evict, hr, hf, if_neg hp2,
      if_pos hd, if_pos (hwd hd), missRead, hread]
    exact ⟨trivial, trivial, trivial⟩
  | false =>
    have hd2 : ¬(f.buffer.is_dirty = true) := by simp [hd]
    simp only [fetch_page, hmiss, BufferPool.evict, hr, hf, if_neg hp2,
      if_neg hd2, missRead, hread]
    exact ⟨trivial, trivial, trivial⟩

theorem read_failure_no_mapping_witness :
    tableGet (fetch_page ⟨⟨fun _ => none, fun _ => true⟩,
      ⟨[⟨0, ⟨9, [4], false⟩, 0⟩], 0⟩, [(9, 0)]⟩ 7).2.1.page_table 7 = none :=
  (read_failure_no_mapping ⟨⟨fun _ => none, fun _ => true⟩,
    ⟨[⟨0, ⟨9, [4], false⟩, 0⟩], 0⟩, [(9, 0)]⟩ 7 0
    ⟨[⟨0, ⟨9, [4], false⟩, 0⟩], 0⟩ 1 ⟨0, ⟨9, [4], false⟩, 0⟩
    (by decide) (by decide) (by decide) (by decide)
    (fun h => by decide) (by decide)).2.2

/-- C7: a successful miss performs, if the victim was dirty, exactly one
disk write of the old page with its old bytes strictly before exactly one
disk read of the requested page; if the victim was clean, exactly one read
and no write. -/
theorem miss_disk_access_pattern (m : BufferPoolManager) (page_id v : Nat)
    (bp1 : BufferPool) (ex : Nat) (f : Frame) (data : Page)
    (hmiss : tableGet m.page_table page_id = none)
    (hev : m.pool.evict = (some v, bp1, ex))
    (hf : bp1.buffers[v]? = some f)
    (hp : f.pins = 0)
    (hread : m.disk.readResult page_id = some data)
    (hwd : f.buffer.is_dirty = true → m.disk.writeOk f.buffer.page_id = true) :
    (fetch_page m page_id).1 = .ok v ∧
    (f.buffer.is_dirty = true →
      (fetch_page m page_id).2.2 =
        [DiskOp.write f.buffer.page_id f.buffer.page, DiskOp.read page_id]) ∧
    (f.buffer.is_dirty = false →
      (fetch_page m page_id).2.2 = [DiskOp.read page_id]) := by
  have hr := evict_eq_some hev
  have hp2 : ¬(f.pins ≠ 0) := by simp [hp]
  cases hd : f.buffer.is_dirty with
  | true =>
    simp only [fetch_page, hmiss, BufferPool.evict, hr, hf, if_neg hp2,
      if_pos hd, if_pos (hwd hd), missRead, hread]
    exact ⟨trivial, fun _ => by simp, fun h2 => by simp at h2⟩
  | false =>
    have hd2 : ¬(f.buffer.is_dirty = true) := by simp [hd]
    simp only [fetch_page, hmiss, BufferPool.evict, hr, hf, if_neg hp2,
      if_neg hd2, missRead, hread]
    exact ⟨trivial, fun h2 => by simp at h2, fun _ => by simp⟩

theorem miss_disk_access_pattern_witness :
    (fetch_page ⟨⟨fun p => some [p], fun _ => true⟩,
      ⟨[⟨0, ⟨9, [4], true⟩, 0⟩], 0⟩, [(9, 0)]⟩ 7).2.2 =
      [DiskOp.write 9 [4], DiskOp.read 7] :=
  (miss_disk_access_pattern ⟨⟨fun p => some [p], fun _ => true⟩,
    ⟨[⟨0, ⟨9, [4], true⟩, 0⟩], 0⟩, [(9, 0)]⟩ 7 0
    ⟨[⟨0, ⟨9, [4], true⟩, 0⟩], 0⟩ 1 ⟨0, ⟨9, [4], true⟩, 0⟩ [7]
    (by decide) (by decide) (by decide) (by decide) (by decide)
    (fun _ => by decide)).2.1 (by decide)

/-- C8: in every state reachable from a fresh pool by `fetch_page` calls
and handle drops, `evict` never selects a pinned frame, and consequently
`fetch_page` never hits the panic of the exclusive-access `unwrap` (nor
any out-of-range index) on its miss path. -/
theorem pinned_frames_never_evicted (m : BufferPoolManager)
    (hreach : Reachable m) :
    (∀ page_id : Nat, (fetch_page m page_id).1 ≠ .panicked) ∧
    (∀ (v : Nat) (bp' : BufferPool) (ex : Nat) (f : Frame),
      m.pool.evict = (some v, bp', ex) → m.pool.buffers[v]? = some f →
      f.pins = 0) := by
  obtain ⟨hpin, htr⟩ := reachable_inv hreach
  constructor
  · intro page_id
    cases ht : tableGet m.page_table page_id with
    | some b =>
      have hmem := tableGet_some_mem ht
      have hblt : b < m.pool.buffers.length := by
        have h2 := htr _ hmem
        simpa [BufferPool.size] using h2
      have hb : m.pool.buffers[b]? = some m.pool.buffers[b] :=
        List.getElem?_eq_getElem hblt
      simp [fetch_page, ht, hb]
    | none =>
      cases haux : evictAux (evictFuel m.pool) m.pool 0 0 with
      | none => simp [fetch_page, ht, BufferPool.evict, haux]
      | some r =>
        obtain ⟨res, pool1, ex⟩ := r
        cases res with
        | none => simp [fetch_page, ht, BufferPool.evict, haux]
        | some v =>
          obtain ⟨hcur, fv, hfv, hu⟩ := evictAux_victim haux
          have hpin1 : PinInv pool1 := evictAux_pinInv haux hpin
          have hfp : fv.pins = 0 := by
            by_contra hc
            have h2 := hpin1 fv (List.getElem?_mem hfv) (Nat.pos_of_ne_zero hc)
            omega
          have hp2 : ¬(fv.pins ≠ 0) := by simp [hfp]
          simp only [fetch_page, ht, BufferPool.evict, haux, hfv, if_neg hp2]
          by_cases hd : fv.buffer.is_dirty = true
          · rw [if_pos hd]
            by_cases hw : m.disk.writeOk fv.buffer.page_id = true
            · rw [if_pos hw]
              exact missRead_ne_panicked _ _ _ _ _ _
            · rw [if_neg hw]
              simp
          · rw [if_neg hd]
            exact missRead_ne_panicked _ _ _ _ _ _
  · intro v bp' ex f hev hf
    have hr := evict_eq_some hev
    obtain ⟨hcur, fv, hfv, hu⟩ := evictAux_victim hr
    have hpin1 : PinInv bp' := evictAux_pinInv hr hpin
    have hfp : fv.pins = 0 := by
      by_contra hc
      have h2 := hpin1 fv (List.getElem?_mem hfv) (Nat.pos_of_ne_zero hc)
      omega
    have hmap := (evictAux_frames hr).2 v
    rw [hfv, hf] at hmap
    simp only [Option.map_some', Option.some.injEq, Prod.mk.injEq] at hmap
    omega

theorem pinned_frames_never_evicted_witness :
    (fetch_page (initManager ⟨fun p => some [p], fun _ => true⟩ 1) 3).1
      ≠ FetchResult.panicked :=
  (pinned_frames_never_evicted (initManager ⟨fun p => some [p], fun _ => true⟩ 1)
    (Reachable.init ⟨fun p => some [p], fun _ => true⟩ 1)).1 3

/-- C2 counterexample: `cexM3` is observable (it is reached by `fetch_page`
calls and handle drops, the last call returning an I/O error), its lookup
table still maps page 1 to frame 0, yet frame 0's buffer now carries
`PageId` 2 — the requested id written before the failed read — so the
per-entry PageId match of the claimed invariant fails in an observable
state. -/
theorem table_frame_mismatch_after_read_failure :
    Reachable cexM3 ∧
    (fetch_page cexM2 2).1 = .err .io ∧
    cexM3.page_table = [(1, 0)] ∧
    ¬ (∀ pb ∈ cexM3.page_table, ∃ f : Frame,
        cexM3.pool.buffers[pb.2]? = some f ∧ f.buffer.page_id = pb.1) := by
  refine ⟨?_, by decide, by decide, ?_⟩
  · exact Reachable.fetch cexM2 2 (Reachable.drop cexM1 0
      (Reachable.fetch cexM0 1 (Reachable.init cexDisk 1)))
  · intro hall
    obtain ⟨f, hf, hpid⟩ := hall (1, 0) (by decide)
    have hf2 : cexM3.pool.buffers[(0 : Nat)]? = some f := hf
    have hc : cexM3.pool.buffers[(0 : Nat)]? = some ⟨0, ⟨2, [1], false⟩, 0⟩ := by
      decide
    rw [hc] at hf2
    obtain rfl := (Option.some.injEq _ _).mp hf2.symm
    exact absurd hpid (by decide)

/-- C2 amended: the table/frame invariant — distinct keys, every entry
naming an in-range frame whose buffer holds that entry's page, and hence
at most N entries — holds of a fresh pool and is preserved by handle drops
and by every `fetch_page` call except one failing in its read-fill step
(an I/O error whose trace contains a disk read); after such a failed
read-fill the invariant can be violated, as the counterexample shows. -/
theorem table_frame_invariant_amended :
    (∀ (disk : DiskManager) (n : Nat), TableInv (initManager disk n)) ∧
    (∀ (m : BufferPoolManager) (i : Nat), TableInv m →
      TableInv (dropHandle m i)) ∧
    (∀ (m : BufferPoolManager) (page_id : Nat), TableInv m →
      ((fetch_page m page_id).1 = .err .io →
        ∀ p : Nat, DiskOp.read p ∉ (fetch_page m page_id).2.2) →
      TableInv (fetch_page m page_id).2.1) ∧
    (∀ m : BufferPoolManager, TableInv m →
      m.page_table.length ≤ m.pool.buffers.length) :=
  ⟨tableInv_init, tableInv_drop, tableInv_fetch, tableInv_length⟩

theorem table_frame_invariant_amended_witness :
    TableInv (fetch_page (initManager cexDisk 1) 1).2.1 :=
  table_frame_invariant_amended.2.2.1 (initManager cexDisk 1) 1
    (table_frame_invariant_amended.1 cexDisk 1)
    (fun h => absurd h (by decide))
